import Mathlib

/-!
Verification of the job-application tracker's record store and lifecycle
service (`src/server/src/services/applicationService.ts` and the excel
service in `src/server/src/api/index.ts`).

The TypeScript code is shallowly embedded: strings are Lean `String`s
(operated on through their character lists, mirroring the JavaScript
string primitives on the ASCII inputs the service handles), JavaScript
`undefined`-able fields become `Option String`, thrown exceptions become
`Except String`, and the load/modify/save cycle is explicit state passing
of the in-memory record list.  JavaScript truthiness on strings is the
test `s = ""`, and on optional date fields the test `o.getD "" = ""`.
-/

/-- ASCII whitespace, the characters JavaScript string `trim` and the
regex class `\s` strip from the service's inputs. -/
def isWsChar (c : Char) : Bool :=
  c == ' ' || c == '\t' || c == '\n' || c == '\r'

/-- Character-level model of JavaScript `trim`. -/
def trimChars (cs : List Char) : List Char :=
  ((cs.dropWhile isWsChar).reverse.dropWhile isWsChar).reverse

/-- JavaScript `String.prototype.trim` on the service's ASCII data. -/
def trimS (s : String) : String := ⟨trimChars s.data⟩

/-- ASCII lowercasing, as JavaScript `toLowerCase` acts on the service's data. -/
def lowerChar (c : Char) : Char :=
  if 'A' ≤ c ∧ c ≤ 'Z' then Char.ofNat (c.toNat + 32) else c

/-- JavaScript `String.prototype.toLowerCase` on ASCII data. -/
def lowerS (s : String) : String := ⟨s.data.map lowerChar⟩

/-- JavaScript `String.prototype.startsWith`. -/
def startsWithS (s pre : String) : Bool := pre.data.isPrefixOf s.data

/-- JavaScript `String.prototype.includes`, by scanning every suffix. -/
def containsSub (pat : List Char) : List Char → Bool
  | [] => pat.isEmpty
  | c :: rest => pat.isPrefixOf (c :: rest) || containsSub pat rest

/-- JavaScript `String.prototype.includes` lifted to `String`. -/
def includesS (s pat : String) : Bool := containsSub pat.data s.data

/-- JavaScript `replace(/\/+$/, "")`: strip every trailing slash. -/
def dropTrailingSlashes (s : String) : String :=
  ⟨(s.data.reverse.dropWhile (fun c => c == '/')).reverse⟩

/-- JavaScript `String.prototype.split` on a single-character separator,
keeping empty segments. -/
def splitChar (sep : Char) : List Char → List (List Char)
  | [] => [[]]
  | c :: rest =>
    let r := splitChar sep rest
    if c == sep then [] :: r
    else
      match r with
      | h :: t => (c :: h) :: t
      | [] => [[c]]

/-- JavaScript `link.split(sep)` lifted to `String`. -/
def splitS (s : String) (sep : Char) : List String :=
  (splitChar sep s.data).map (fun cs => ⟨cs⟩)

/--
`normalizeUrlForComparison` from `applicationService.ts` (lines 30-44):
empty or whitespace input yields `""`; otherwise trim, prefix `https://`
when no `http://`/`https://` scheme is present, lowercase, and strip
trailing slashes.
-/
def normalizeUrlForComparison (url : String) : String :=
  if trimS url = "" then ""
  else
    let n := trimS url
    let n := if !(startsWithS n "http://") && !(startsWithS n "https://")
             then "https://" ++ n else n
    dropTrailingSlashes (lowerS n)

example : normalizeUrlForComparison "Example.com/Path/" = "https://example.com/path" := by decide
example : normalizeUrlForComparison "https://x.com/1" = "https://x.com/1" := by decide
example : normalizeUrlForComparison "   " = "" := by decide

/--
`Application` from `models/Application.ts`, in the 15-field shape the
current service uses.  `status` and `priority` are strings at runtime
(the load path casts unchecked), optional fields are `Option String`.
-/
structure Application where
  id : String
  url : String
  linkTitle : Option String
  company : Option String
  roleTitle : Option String
  location : Option String
  status : String
  priority : String
  notes : Option String
  appliedDate : Option String
  interviewDate : Option String
  offerDate : Option String
  rejectedDate : Option String
  createdAt : String
  updatedAt : String
deriving DecidableEq

/-- `DEFAULT_STATUS` from `config/constants.ts`. -/
def DEFAULT_STATUS : String := "TODO"

/-- `DEFAULT_PRIORITY` from `config/constants.ts`. -/
def DEFAULT_PRIORITY : String := "MEDIUM"

/-- The status enumeration of `models/Application.ts`. -/
def validStatus (s : String) : Bool :=
  s == "TODO" || s == "APPLIED" || s == "INTERVIEW" || s == "OFFER" ||
  s == "REJECTED" || s == "ARCHIVED"

/-- The priority enumeration of `models/Application.ts`. -/
def validPriority (s : String) : Bool :=
  s == "LOW" || s == "MEDIUM" || s == "HIGH"

/--
Loop body of `deduplicateApplications` (`applicationService.ts` lines
49-78): `seen` is the set of normalized URLs encountered so far; records
with empty or whitespace URLs are kept, later records whose normalized
URL was already seen are dropped.
-/
def dedupGo (seen : List String) : List Application → List Application
  | [] => []
  | a :: rest =>
    if trimS a.url = "" then a :: dedupGo seen rest
    else
      let nu := normalizeUrlForComparison a.url
      if nu ∈ seen then dedupGo seen rest
      else a :: dedupGo (nu :: seen) rest

/-- `deduplicateApplications` from `applicationService.ts`. -/
def deduplicateApplications (apps : List Application) : List Application :=
  dedupGo [] apps

/--
Modelled from the claim's words, for comparison with
`deduplicateApplications`: a record is kept iff its URL is empty or
whitespace, or no earlier record with a non-empty URL has the same
normalized URL.
-/
def keepRecord (earlier : List Application) (a : Application) : Bool :=
  trimS a.url == "" ||
  !(earlier.any fun b =>
      trimS b.url != "" &&
      normalizeUrlForComparison b.url == normalizeUrlForComparison a.url)

/-- Recursion for `dedupFirstOccurrence`, carrying the processed records. -/
def dedupSpecGo (earlier : List Application) : List Application → List Application
  | [] => []
  | a :: rest =>
    if keepRecord earlier a then a :: dedupSpecGo (earlier ++ [a]) rest
    else dedupSpecGo (earlier ++ [a]) rest

/-- The claim's description of deduplication: keep exactly the first
record per normalized non-empty URL, keep all empty-URL records, in order. -/
def dedupFirstOccurrence (apps : List Application) : List Application :=
  dedupSpecGo [] apps

/--
Attempt to match the regex `https?:\/\/[^\s]+` at the start of `cs`:
a scheme followed by at least one non-whitespace character.
-/
def matchUrlAt (cs : List Char) : Option (List Char) :=
  if "https://".data.isPrefixOf cs then
    let run := (cs.drop 8).takeWhile (fun c => !isWsChar c)
    if run.isEmpty then none else some ("https://".data ++ run)
  else if "http://".data.isPrefixOf cs then
    let run := (cs.drop 7).takeWhile (fun c => !isWsChar c)
    if run.isEmpty then none else some ("http://".data ++ run)
  else none

/-- Scan for the leftmost match of `https?:\/\/[^\s]+`, returning the
match start index and the matched text, as `link.match(...)` together
with `link.indexOf(urlMatch[0])` produce them (the leftmost match means
the matched text cannot occur at an earlier index). -/
def findUrlGo : List Char → Nat → Option (Nat × List Char)
  | [], _ => none
  | c :: rest, i =>
    match matchUrlAt (c :: rest) with
    | some m => some (i, m)
    | none => findUrlGo rest (i + 1)

/-- First `http(s)://…` match in a string, with its start index. -/
def findFirstUrl (s : String) : Option (Nat × String) :=
  (findUrlGo s.data 0).map (fun p => (p.1, ⟨p.2⟩))

/-- `undefined`-for-empty coercion: `s || undefined` on a string. -/
def strOpt (s : String) : Option String :=
  if s = "" then none else some s

/--
Entry parsing of `createApplicationsFromLinks` (`applicationService.ts`
lines 186-213): skip empty/whitespace entries; parse `"Title|URL"` when
the split yields exactly two parts whose second starts with `http`;
otherwise, when the entry contains `http`, extract the first regex match
as the URL and the text before it as the title; otherwise the whole
entry is used as the URL.  Returns `(url, linkTitle)` or `none` when the
entry is skipped.
-/
def parseLinkEntry (link : String) : Option (String × Option String) :=
  if trimS link = "" then none
  else
    let parts := (splitS link '|').map trimS
    let parsed : String × Option String :=
      if parts.length = 2 ∧ startsWithS (parts.getD 1 "") "http" then
        (parts.getD 1 "", strOpt (parts.getD 0 ""))
      else if includesS link "http" then
        match findFirstUrl link with
        | some (i, u) => (u, strOpt (trimS ⟨link.data.take i⟩))
        | none => (link, none)
      else (link, none)
    if trimS parsed.1 = "" then none else some parsed

/-- Duplicate test of the ingest loop: some existing record with a
non-empty URL has the given normalized URL. -/
def dupAgainst (existing : List Application) (nu : String) : Bool :=
  existing.any fun a =>
    trimS a.url != "" && normalizeUrlForComparison a.url == nu

/--
One entry of the ingest loop (`applicationService.ts` lines 186-234):
parse, normalize, and drop duplicates against the records loaded at the
start of the call.  Returns the normalized URL and title of a surviving
entry.
-/
def processEntry (existing : List Application) (link : String) :
    Option (String × Option String) :=
  match parseLinkEntry link with
  | none => none
  | some (url, title) =>
    let nu := normalizeUrlForComparison url
    if dupAgainst existing nu then none else some (nu, title)

/-- The record built for a surviving entry (`applicationService.ts`
lines 239-247): fresh id, normalized URL, defaults, both timestamps `now`. -/
def mkLinkApp (idv nu : String) (title : Option String) (now : String) :
    Application :=
  { id := idv, url := nu, linkTitle := title, company := none,
    roleTitle := none, location := none, status := DEFAULT_STATUS,
    priority := DEFAULT_PRIORITY, notes := none, appliedDate := none,
    interviewDate := none, offerDate := none, rejectedDate := none,
    createdAt := now, updatedAt := now }

/--
The `for (const link of links)` loop of `createApplicationsFromLinks`:
`k` counts the records created so far and indexes the id supply `ids`.
The duplicate check runs against `existing` only — records created
earlier in the same batch are not consulted.
-/
def ingestGo (ids : Nat → String) (now : String) (existing : List Application)
    (k : Nat) : List String → List Application
  | [] => []
  | link :: rest =>
    match processEntry existing link with
    | none => ingestGo ids now existing k rest
    | some (nu, title) =>
      mkLinkApp (ids k) nu title now :: ingestGo ids now existing (k + 1) rest

/--
`createApplicationsFromLinks` (`applicationService.ts` lines 176-261):
rejects an empty batch, otherwise returns the newly created records and
the record list persisted by the final `saveApplications` (the loaded
records followed by the new ones).  `ids` supplies the generated UUIDs.
-/
def createApplicationsFromLinks (ids : Nat → String) (now : String)
    (existing : List Application) (links : List String) :
    Except String (List Application × List Application) :=
  if links = [] then
    .error "InvalidApplicationDataError: Links must be a non-empty array"
  else
    let newApps := ingestGo ids now existing 0 links
    .ok (newApps, existing ++ newApps)

/--
A `Partial<Application>` patch as the update route delivers it: `none`
means the key is absent from the patch; for the optional record fields a
present key carries an `Option String` (JavaScript object spread copies
keys whose value is `undefined`, as `clearLink` relies on).
-/
structure ApplicationPatch where
  id : Option String := none
  url : Option String := none
  linkTitle : Option (Option String) := none
  company : Option (Option String) := none
  roleTitle : Option (Option String) := none
  location : Option (Option String) := none
  status : Option String := none
  priority : Option String := none
  notes : Option (Option String) := none
  appliedDate : Option (Option String) := none
  interviewDate : Option (Option String) := none
  offerDate : Option (Option String) := none
  rejectedDate : Option (Option String) := none
  createdAt : Option String := none
  updatedAt : Option String := none
deriving DecidableEq

/-- `applications.findIndex(app => app.id === id)` together with the
record found there. -/
def findApp : List Application → String → Option (Nat × Application)
  | [], _ => none
  | a :: rest, idv =>
    if a.id = idv then some (0, a)
    else (findApp rest idv).map (fun p => (p.1 + 1, p.2))

/--
The merge step of `updateApplication` (`applicationService.ts` lines
294-314): the spread `{...app, ...updates, updatedAt: now}` followed by
the derived-date ratchet — when the patch carries a status different
from the current one, each date is set to `now` only if the
corresponding field of the original record is unset (falsy).
-/
def applyPatch (now : String) (app : Application) (p : ApplicationPatch) :
    Application :=
  let u : Application :=
    { id := p.id.getD app.id, url := p.url.getD app.url,
      linkTitle := p.linkTitle.getD app.linkTitle,
      company := p.company.getD app.company,
      roleTitle := p.roleTitle.getD app.roleTitle,
      location := p.location.getD app.location,
      status := p.status.getD app.status,
      priority := p.priority.getD app.priority,
      notes := p.notes.getD app.notes,
      appliedDate := p.appliedDate.getD app.appliedDate,
      interviewDate := p.interviewDate.getD app.interviewDate,
      offerDate := p.offerDate.getD app.offerDate,
      rejectedDate := p.rejectedDate.getD app.rejectedDate,
      createdAt := p.createdAt.getD app.createdAt, updatedAt := now }
  match p.status with
  | none => u
  | some s =>
    if s ≠ "" ∧ s ≠ app.status then
      { u with
        appliedDate :=
          if s = "APPLIED" ∧ app.appliedDate.getD "" = "" then some now
          else u.appliedDate,
        interviewDate :=
          if s = "INTERVIEW" ∧ app.interviewDate.getD "" = "" then some now
          else u.interviewDate,
        offerDate :=
          if s = "OFFER" ∧ app.offerDate.getD "" = "" then some now
          else u.offerDate,
        rejectedDate :=
          if s = "REJECTED" ∧ app.rejectedDate.getD "" = "" then some now
          else u.rejectedDate }
    else u

/-- The uniqueness scan of `updateApplication` (lines 319-323): some
record other than the one at index `i`, with a non-empty URL, has
normalized URL `nu`.  `j` is the index of the head of the remaining list. -/
def dupAtOther : List Application → Nat → Nat → String → Bool
  | [], _, _, _ => false
  | a :: rest, j, i, nu =>
    (decide (j ≠ i) && trimS a.url != "" &&
      normalizeUrlForComparison a.url == nu) ||
    dupAtOther rest (j + 1) i nu

/--
`updateApplication` (`applicationService.ts` lines 281-341): find the
record, merge the patch with the date ratchet, and when the patch
carries a non-empty URL, normalize it, reject the whole update on a
collision with any other record, and store the normalized URL.  Returns
the updated record and the record list persisted by `saveApplications`.
-/
def updateApplication (now : String) (store : List Application)
    (idv : String) (p : ApplicationPatch) :
    Except String (Application × List Application) :=
  match findApp store idv with
  | none => .error "ApplicationNotFoundError"
  | some (i, app) =>
    let m := applyPatch now app p
    match p.url with
    | some url =>
      if trimS url = "" then .ok (m, store.set i m)
      else
        let nu := normalizeUrlForComparison url
        if dupAtOther store 0 i nu then
          .error "InvalidApplicationDataError: URL already exists"
        else
          let m2 := { m with url := nu }
          .ok (m2, store.set i m2)
    | none => .ok (m, store.set i m)

/-- A patch that contains only a `status` field. -/
def statusPatch (s : String) : ApplicationPatch := { status := some s }

/-- A sequence of status-only `updateApplication` calls against record
`idv`, each step carrying a status and a timestamp; a failing call
leaves the store unchanged. -/
def runStatusUpdates (idv : String) : List (String × String) →
    List Application → List Application
  | [], store => store
  | (s, t) :: rest, store =>
    match updateApplication t store idv (statusPatch s) with
    | .ok r => runStatusUpdates idv rest r.2
    | .error _ => runStatusUpdates idv rest store

/-- The record-level effect of one status-only update. -/
def applyStatusUpdate (t : String) (a : Application) (s : String) :
    Application :=
  applyPatch t a (statusPatch s)

/-- The canonical header row written by the excel service. -/
def headerRow : List String :=
  ["id", "url", "linkTitle", "company", "roleTitle", "location",
   "status", "priority", "notes", "appliedDate", "interviewDate",
   "offerDate", "rejectedDate", "createdAt", "updatedAt"]

/-- The cell row written for one record by `saveApplications`
(`api/index.ts` lines 374-392): optional fields become `""`. -/
def appToRow (a : Application) : List String :=
  [a.id, a.url, a.linkTitle.getD "", a.company.getD "",
   a.roleTitle.getD "", a.location.getD "", a.status, a.priority,
   a.notes.getD "", a.appliedDate.getD "", a.interviewDate.getD "",
   a.offerDate.getD "", a.rejectedDate.getD "", a.createdAt, a.updatedAt]

/--
`saveApplications` (`api/index.ts` lines 348-415) at the table level: a
fresh sheet holding the header row followed by one row per record.
-/
def saveApplicationsBlob (apps : List Application) : List (List String) :=
  headerRow :: apps.map appToRow

/--
One row of the `loadApplications` read loop (`api/index.ts` lines
303-324): rows with an empty id cell are skipped; empty cells map to
`undefined` for the optional fields, to `TODO`/`MEDIUM` for
status/priority, and to `now` for the timestamps.  A missing cell reads
as an empty cell.
-/
def rowToApp (now : String) (row : List String) : Option Application :=
  let cell := fun i => row.getD (i - 1) ""
  if cell 1 = "" then none
  else some
    { id := cell 1, url := cell 2, linkTitle := strOpt (cell 3),
      company := strOpt (cell 4), roleTitle := strOpt (cell 5),
      location := strOpt (cell 6),
      status := if cell 7 = "" then "TODO" else cell 7,
      priority := if cell 8 = "" then "MEDIUM" else cell 8,
      notes := strOpt (cell 9), appliedDate := strOpt (cell 10),
      interviewDate := strOpt (cell 11), offerDate := strOpt (cell 12),
      rejectedDate := strOpt (cell 13),
      createdAt := if cell 14 = "" then now else cell 14,
      updatedAt := if cell 15 = "" then now else cell 15 }

/--
`loadApplications` (`api/index.ts` lines 285-341) at the table level: a
header-only (or empty) sheet yields no records, otherwise every data row
with a non-empty id cell becomes a record.
-/
def loadApplicationsBlob (now : String) (blob : List (List String)) :
    List Application :=
  if blob.length ≤ 1 then [] else (blob.drop 1).filterMap (rowToApp now)

/--
Runtime configuration of the storage backend: deployment target,
presence of the blob token, availability of the blob module, and whether
the actual write calls succeed.
-/
structure BackendEnv where
  isVercel : Bool
  hasToken : Bool
  moduleAvailable : Bool
  putSucceeds : Bool
  localWriteSucceeds : Bool
deriving DecidableEq

/--
`saveExcelFileBuffer` (`api/index.ts` lines 137-227).  The returned
`Bool` records whether the bytes were actually persisted: on Vercel with
no `BLOB_READ_WRITE_TOKEN`, or with the blob module unavailable, the
function logs and returns without throwing and without writing
(`.ok false`); a failing blob upload or local write throws an
`ExcelServiceError`.
-/
def saveExcelFileBuffer (env : BackendEnv) : Except String Bool :=
  if env.isVercel then
    if !env.hasToken then .ok false
    else if !env.moduleAvailable then .ok false
    else if env.putSucceeds then .ok true
    else .error "ExcelServiceError: Failed to upload to Blob storage"
  else
    if env.localWriteSucceeds then .ok true
    else .error "ExcelServiceError: Failed to save Excel file"

/--
The byte payloads `restoreExcelFile` can receive, by how the excel
library reacts to them: a parseable workbook containing the
`Applications` sheet with its rows, a parseable workbook without that
sheet, or bytes `workbook.xlsx.load` rejects.
-/
inductive ExcelBytes where
  | sheet (rows : List (List String))
  | noSheet
  | corrupt
deriving DecidableEq

/-- `getExcelFileBuffer` (`api/index.ts` lines 84-132): on Vercel the
stored bytes are reachable only when the token and module are available;
otherwise reads fall back to "not found". -/
def getExcelFileBufferEnv (env : BackendEnv) (stored : Option ExcelBytes) :
    Option ExcelBytes :=
  if env.isVercel then
    if env.hasToken && env.moduleAvailable then stored else none
  else stored

/--
`ensureWorkbook` (`api/index.ts` lines 232-280) at the table level: a
readable `Applications` sheet keeps its rows; absent, corrupt, or
sheet-less bytes yield a fresh header-only sheet.
-/
def ensureWorkbookRows : Option ExcelBytes → List (List String)
  | some (.sheet rows) => rows
  | _ => [headerRow]

/-- `loadApplications` against the stored bytes under an environment. -/
def loadApplicationsStore (env : BackendEnv) (now : String)
    (stored : Option ExcelBytes) : List Application :=
  loadApplicationsBlob now (ensureWorkbookRows (getExcelFileBufferEnv env stored))

/--
`restoreExcelFile` (`api/index.ts` lines 420-432): write the uploaded
bytes through `saveExcelFileBuffer`, then return `loadApplications()`.
The state is the stored byte payload; when the backend silently skips
the write the prior payload survives.
-/
def restoreExcelFile (env : BackendEnv) (now : String)
    (stored : Option ExcelBytes) (bytes : ExcelBytes) :
    Except String (Option ExcelBytes × List Application) :=
  match saveExcelFileBuffer env with
  | .error e => .error ("ExcelServiceError: Failed to restore Excel file: " ++ e)
  | .ok persisted =>
    let stored' := if persisted then some bytes else stored
    .ok (stored', loadApplicationsStore env now stored')

/-- A concrete well-formed record used by concrete instantiations. -/
def sampleRecordA : Application :=
  { id := "A", url := "https://a.com/x", linkTitle := some "A role",
    company := none, roleTitle := none, location := none,
    status := "TODO", priority := "MEDIUM", notes := none,
    appliedDate := none, interviewDate := none, offerDate := none,
    rejectedDate := none, createdAt := "2024-01-01", updatedAt := "2024-01-01" }

/-- A concrete record whose `appliedDate` is already set. -/
def sampleRecordB : Application :=
  { id := "B", url := "https://b.com/y", linkTitle := none,
    company := none, roleTitle := none, location := none,
    status := "INTERVIEW", priority := "HIGH", notes := none,
    appliedDate := some "2024-01-02", interviewDate := none,
    offerDate := none, rejectedDate := none,
    createdAt := "2024-01-01", updatedAt := "2024-01-03" }

/--
Well-formedness of a record, as the service itself creates records: a
non-empty generated id, enumerated status and priority, non-empty
timestamps, and optional fields that are absent rather than present-but-empty.
-/
def WellFormedApp (a : Application) : Prop :=
  a.id ≠ "" ∧ validStatus a.status = true ∧ validPriority a.priority = true ∧
  a.createdAt ≠ "" ∧ a.updatedAt ≠ "" ∧
  a.linkTitle ≠ some "" ∧ a.company ≠ some "" ∧ a.roleTitle ≠ some "" ∧
  a.location ≠ some "" ∧ a.notes ≠ some "" ∧ a.appliedDate ≠ some "" ∧
  a.interviewDate ≠ some "" ∧ a.offerDate ≠ some "" ∧ a.rejectedDate ≠ some ""

/-- Iterated record-level effect of a status-only update sequence. -/
def statusFold (a : Application) (steps : List (String × String)) :
    Application :=
  steps.foldl (fun acc p => applyStatusUpdate p.2 acc p.1) a

/-- C2 counterexample: on Vercel with no blob token the write cannot be
performed, yet `saveExcelFileBuffer` returns success (`.ok false` records
that nothing was persisted), so the triggering operation cannot report
the failure. -/
theorem saveExcelFileBuffer_unconfigured_counterexample :
    saveExcelFileBuffer
      { isVercel := true, hasToken := false, moduleAvailable := false,
        putSucceeds := false, localWriteSucceeds := false } = .ok false := rfl

/-- C2 (amended): a failing blob upload on a configured backend and a
failing local write are surfaced as `ExcelServiceError`s, but when the
blob store is not configured (missing token) the write is silently
skipped and success is reported to the caller. -/
theorem saveExcelFileBuffer_error_reporting (env : BackendEnv) :
    (env.isVercel = true → env.hasToken = true → env.moduleAvailable = true →
      env.putSucceeds = false →
      saveExcelFileBuffer env =
        .error "ExcelServiceError: Failed to upload to Blob storage") ∧
    (env.isVercel = false → env.localWriteSucceeds = false →
      saveExcelFileBuffer env =
        .error "ExcelServiceError: Failed to save Excel file") ∧
    (env.isVercel = true → env.hasToken = false →
      saveExcelFileBuffer env = .ok false) := by
  obtain ⟨v, t, m, p, l⟩ := env
  refine ⟨?_, ?_, ?_⟩ <;> intro h1 h2 <;> simp_all [saveExcelFileBuffer]

theorem saveExcelFileBuffer_error_reporting_witness :
    saveExcelFileBuffer
      { isVercel := true, hasToken := true, moduleAvailable := true,
        putSucceeds := false, localWriteSucceeds := true } =
      .error "ExcelServiceError: Failed to upload to Blob storage" :=
  (saveExcelFileBuffer_error_reporting _).1 rfl rfl rfl rfl

/-- C3 counterexample: a stored status `"WEIRD"` and priority `"ODD"`
are outside the enumerations, yet `loadApplications` returns them
as-is instead of coercing them to `TODO`/`MEDIUM`. -/
theorem loadApplications_unknown_status_counterexample :
    (loadApplicationsBlob "N"
      [headerRow,
       ["r1", "https://a.com", "", "", "", "", "WEIRD", "ODD", "", "", "",
        "", "", "2024-01-01", "2024-01-01"]]).map
        (fun a => (a.status, a.priority)) = [("WEIRD", "ODD")] ∧
    validStatus "WEIRD" = false ∧ validPriority "ODD" = false := by
  decide

/-- helper -/
theorem findApp_some_id : ∀ (store : List Application) (idv : String)
    (i : Nat) (a : Application), findApp store idv = some (i, a) → a.id = idv := by
  intro store idv
  induction store with
  | nil => intro i a h; simp [findApp] at h
  | cons x rest ih =>
    intro i a h
    unfold findApp at h
    split at h
    · rename_i hx
      injection h with h'
      injection h' with h1 h2
      subst h2
      exact hx
    · rw [Option.map_eq_some'] at h
      obtain ⟨⟨j, b⟩, hj, hb⟩ := h
      injection hb with h1 h2
      subst h2
      exact ih j b hj

/-- C3 (amended): `loadApplications` defaults a missing or empty status
cell to `TODO` and a missing or empty priority cell to `MEDIUM`; any
non-empty stored value is kept verbatim, with no enum validation. -/
theorem loadApplications_enum_defaulting
    (now : String) (blob : List (List String)) (a : Application)
    (ha : a ∈ loadApplicationsBlob now blob) :
    ∃ row, row ∈ blob.drop 1 ∧
      a.status = (if row.getD 6 "" = "" then "TODO" else row.getD 6 "") ∧
      a.priority = (if row.getD 7 "" = "" then "MEDIUM" else row.getD 7 "") := by
  unfold loadApplicationsBlob at ha
  split at ha
  · simp at ha
  · rw [List.mem_filterMap] at ha
    obtain ⟨row, hrow, hsome⟩ := ha
    refine ⟨row, hrow, ?_, ?_⟩ <;>
    · unfold rowToApp at hsome
      dsimp only at hsome
      split at hsome
      · simp at hsome
      · injection hsome with h
        subst h
        rfl

theorem loadApplications_enum_defaulting_witness :
    ∃ row, row ∈ ([headerRow,
        ["r1", "https://a.com", "", "", "", "", "", "", "", "", "", "", "",
         "2024-01-01", "2024-01-01"]] : List (List String)).drop 1 ∧
      ({ id := "r1", url := "https://a.com", linkTitle := none,
         company := none, roleTitle := none, location := none,
         status := "TODO", priority := "MEDIUM", notes := none,
         appliedDate := none, interviewDate := none, offerDate := none,
         rejectedDate := none, createdAt := "2024-01-01",
         updatedAt := "2024-01-01" } : Application).status =
        (if row.getD 6 "" = "" then "TODO" else row.getD 6 "") ∧
      ({ id := "r1", url := "https://a.com", linkTitle := none,
         company := none, roleTitle := none, location := none,
         status := "TODO", priority := "MEDIUM", notes := none,
         appliedDate := none, interviewDate := none, offerDate := none,
         rejectedDate := none, createdAt := "2024-01-01",
         updatedAt := "2024-01-01" } : Application).priority =
        (if row.getD 7 "" = "" then "MEDIUM" else row.getD 7 "") :=
  loadApplications_enum_defaulting "N"
    [headerRow,
     ["r1", "https://a.com", "", "", "", "", "", "", "", "", "", "", "",
      "2024-01-01", "2024-01-01"]] _ (by decide)

/-- C4 counterexample: handing `restoreExcelFile` unparseable bytes over
a healthy store persists the bytes anyway and returns the empty record
list with no `InvalidRestoreData`-kind failure; the prior store content
is overwritten. -/
theorem restoreExcelFile_invalid_counterexample :
    restoreExcelFile
      { isVercel := false, hasToken := false, moduleAvailable := false,
        putSucceeds := false, localWriteSucceeds := true } "N"
      (some (.sheet [headerRow, appToRow sampleRecordA])) .corrupt =
      .ok (some .corrupt, []) := rfl

/-- C4 (amended): `restoreExcelFile` performs no validation: whenever
the backend write succeeds it persists the uploaded bytes verbatim and
returns the result of loading them; unparseable bytes therefore yield
the empty record list rather than an error, with the store already
overwritten. -/
theorem restoreExcelFile_no_validation (env : BackendEnv) (now : String)
    (stored : Option ExcelBytes) (bytes : ExcelBytes)
    (hv : env.isVercel = false) (hw : env.localWriteSucceeds = true) :
    restoreExcelFile env now stored bytes =
      .ok (some bytes, loadApplicationsStore env now (some bytes)) ∧
    restoreExcelFile env now stored .corrupt = .ok (some .corrupt, []) := by
  constructor <;>
    simp [restoreExcelFile, saveExcelFileBuffer, loadApplicationsStore,
      getExcelFileBufferEnv, ensureWorkbookRows, loadApplicationsBlob, hv, hw]

theorem restoreExcelFile_no_validation_witness :
    restoreExcelFile
      { isVercel := false, hasToken := false, moduleAvailable := false,
        putSucceeds := false, localWriteSucceeds := true } "N" none .noSheet =
      .ok (some .noSheet,
        loadApplicationsStore
          { isVercel := false, hasToken := false, moduleAvailable := false,
            putSucceeds := false, localWriteSucceeds := true } "N"
          (some .noSheet)) :=
  (restoreExcelFile_no_validation _ "N" none .noSheet rfl rfl).1

/-- C5 counterexample: ingesting `"Example.com/Path/"` stores the
normalized URL `"https://example.com/path"`, not the caller's original
spelling. -/
theorem createApplications_stores_normalized_counterexample :
    (createApplicationsFromLinks (fun _ => "id0") "T" []
      ["Example.com/Path/"]).toOption.map
        (fun r => r.1.map (fun a => a.url)) =
      some ["https://example.com/path"] ∧
    ("https://example.com/path" : String) ≠ "Example.com/Path/" := by
  decide

/-- C5 (amended): the normalized URL is not only compared but stored:
when `updateApplication` receives a patch with a non-empty URL, the
resulting record's `url` field is the normalized form of the patch URL
(`createApplicationsFromLinks` likewise stores the normalized form, as
the counterexample shows). -/
theorem updateApplication_stores_normalized_url
    (now : String) (store : List Application) (idv u : String)
    (p : ApplicationPatch) (r : Application) (s' : List Application)
    (hu : p.url = some u) (hne : trimS u ≠ "")
    (h : updateApplication now store idv p = .ok (r, s')) :
    r.url = normalizeUrlForComparison u := by
  unfold updateApplication at h
  cases hf : findApp store idv with
  | none => rw [hf] at h; simp at h
  | some pr =>
    obtain ⟨i, app⟩ := pr
    rw [hf, hu] at h
    dsimp only at h
    split at h
    · exact absurd (by assumption) hne
    · split at h
      · simp at h
      · injection h with h'
        injection h' with h1 h2
        subst h1
        rfl

theorem updateApplication_stores_normalized_url_witness :
    ∃ r s', updateApplication "T2" [sampleRecordA] "A"
        { url := some "B.com/Q/" } = .ok (r, s') ∧
      r.url = normalizeUrlForComparison "B.com/Q/" :=
  ⟨_, _, rfl, updateApplication_stores_normalized_url "T2" [sampleRecordA]
    "A" "B.com/Q/" { url := some "B.com/Q/" } _ _ rfl (by decide) rfl⟩

/-- C7 counterexample: because `updateApplication` merges with a blind
object spread, a patch containing an `id` or `createdAt` key overwrites
those fields of the stored record. -/
theorem updateApplication_id_patch_counterexample :
    (updateApplication "T" [sampleRecordA] "A" { id := some "Z" }).toOption.map
      (fun r => (r.1.id, r.1.createdAt)) = some ("Z", "2024-01-01") ∧
    (updateApplication "T" [sampleRecordA] "A"
      { createdAt := some "1999-01-01" }).toOption.map
        (fun r => r.1.createdAt) = some "1999-01-01" ∧
    ("Z" : String) ≠ "A" ∧ ("1999-01-01" : String) ≠ "2024-01-01" := by
  decide

/-- C7 (amended): for every patch that does not contain `id` or
`createdAt` keys — which is all the HTTP boundary forwards, since it
strips both — `updateApplication` leaves the record's `id` and
`createdAt` unchanged. -/
theorem updateApplication_preserves_id_createdAt
    (now : String) (store : List Application) (idv : String)
    (p : ApplicationPatch) (r : Application) (s' : List Application)
    (hid : p.id = none) (hc : p.createdAt = none)
    (h : updateApplication now store idv p = .ok (r, s')) :
    r.id = idv ∧ ∃ i a, findApp store idv = some (i, a) ∧
      r.createdAt = a.createdAt := by
  unfold updateApplication at h
  cases hf : findApp store idv with
  | none => rw [hf] at h; simp at h
  | some pr =>
    obtain ⟨i, app⟩ := pr
    have happ : app.id = idv := findApp_some_id store idv i app hf
    rw [hf] at h
    dsimp only at h
    have hm : (applyPatch now app p).id = idv ∧
        (applyPatch now app p).createdAt = app.createdAt := by
      unfold applyPatch
      cases hs : p.status <;> simp only [hs]
      · simp [hid, hc, happ]
      · split <;> simp [hid, hc, happ]
    cases hu : p.url with
    | none =>
      rw [hu] at h
      injection h with h'
      injection h' with h1 h2
      subst h1
      exact ⟨hm.1, i, app, rfl, hm.2⟩
    | some u =>
      rw [hu] at h
      dsimp only at h
      split at h
      · injection h with h'
        injection h' with h1 h2
        subst h1
        exact ⟨hm.1, i, app, rfl, hm.2⟩
      · split at h
        · simp at h
        · injection h with h'
          injection h' with h1 h2
          subst h1
          exact ⟨hm.1, i, app, rfl, hm.2⟩

theorem updateApplication_preserves_id_createdAt_witness :
    ∃ r s', updateApplication "T3" [sampleRecordA] "A"
        { status := some "APPLIED", company := some (some "Acme") } =
        .ok (r, s') ∧
      r.id = "A" ∧ ∃ i a, findApp [sampleRecordA] "A" = some (i, a) ∧
        r.createdAt = a.createdAt := by
  refine ⟨_, _, rfl, ?_⟩
  exact updateApplication_preserves_id_createdAt "T3" [sampleRecordA] "A"
    { status := some "APPLIED", company := some (some "Acme") } _ _ rfl rfl rfl

/-- C9 counterexample: a non-empty entry containing no http/https URL
is not skipped: `createApplicationsFromLinks` treats the whole entry as
the URL and creates a record for it (`"hello world"` becomes
`"https://hello world"`). -/
theorem ingestLinks_no_url_entry_counterexample :
    (createApplicationsFromLinks (fun _ => "id0") "T" []
      ["hello world"]).toOption.map
        (fun r => r.1.map (fun a => a.url)) =
      some ["https://hello world"] := by
  decide

/-- helper: a skipped entry contributes nothing to the ingest loop -/
theorem ingestGo_skip (ids : Nat → String) (now : String)
    (existing : List Application) (e : String)
    (he : processEntry existing e = none) :
    ∀ (l1 l2 : List String) (k : Nat),
      ingestGo ids now existing k (l1 ++ e :: l2) =
        ingestGo ids now existing k (l1 ++ l2) := by
  intro l1
  induction l1 with
  | nil =>
    intro l2 k
    simp only [List.nil_append, ingestGo, he]
  | cons x rest ih =>
    intro l2 k
    simp only [List.cons_append, ingestGo]
    cases hx : processEntry existing x with
    | none => exact ih l2 k
    | some v => exact congrArg (mkLinkApp (ids k) v.1 v.2 now :: ·) (ih l2 (k + 1))

/-- C9 (amended): only empty or whitespace-only entries are silently
skipped by `createApplicationsFromLinks`: removing such an entry from a
batch changes neither the created records nor the persisted store, and
raises no error (provided the remaining batch is non-empty). -/
theorem ingestLinks_skips_whitespace_entries (ids : Nat → String)
    (now : String) (existing : List Application) (l1 l2 : List String)
    (e : String) (he : trimS e = "") (hne : l1 ++ l2 ≠ []) :
    createApplicationsFromLinks ids now existing (l1 ++ e :: l2) =
      createApplicationsFromLinks ids now existing (l1 ++ l2) := by
  have hp : processEntry existing e = none := by
    unfold processEntry parseLinkEntry
    rw [he]
    rfl
  unfold createApplicationsFromLinks
  rw [if_neg (by simp), if_neg hne, ingestGo_skip ids now existing e hp]

theorem ingestLinks_skips_whitespace_entries_witness :
    createApplicationsFromLinks (fun _ => "id0") "T" []
      ["https://x.com/1", "   ", "https://y.com/2"] =
      createApplicationsFromLinks (fun _ => "id0") "T" []
        ["https://x.com/1", "https://y.com/2"] :=
  ingestLinks_skips_whitespace_entries (fun _ => "id0") "T" []
    ["https://x.com/1"] ["https://y.com/2"] "   " (by decide) (by decide)

/-- C1 counterexample: ingesting
`["https://x.com/1", "Eng Role|https://x.com/1"]` into an empty store
creates two records with the same non-empty normalized URL — duplicates
are not skipped within a batch, and the store ends up violating
normalized-URL uniqueness. -/
theorem ingestLinks_batch_duplicate_counterexample :
    (createApplicationsFromLinks (fun n => toString n) "T" []
      ["https://x.com/1", "Eng Role|https://x.com/1"]).toOption.map
        (fun r => r.2.map (fun a => a.url)) =
      some ["https://x.com/1", "https://x.com/1"] ∧
    trimS "https://x.com/1" ≠ "" := by
  decide

/-- helper: a surviving entry's normalized URL has no duplicate in the store -/
theorem processEntry_some_nodup (ex : List Application) (link : String)
    (v : String × Option String) (h : processEntry ex link = some v) :
    dupAgainst ex v.1 = false := by
  unfold processEntry at h
  cases hp : parseLinkEntry link with
  | none => rw [hp] at h; simp at h
  | some q =>
    rw [hp] at h
    dsimp only at h
    split at h
    · simp at h
    · injection h with h'
      subst h'
      rename_i hdup
      exact Bool.eq_false_iff.mpr hdup

/-- helper: reading off the failed duplicate scan -/
theorem dupAgainst_false (ex : List Application) (nu : String)
    (h : dupAgainst ex nu = false) :
    ∀ b ∈ ex, trimS b.url ≠ "" → normalizeUrlForComparison b.url ≠ nu := by
  intro b hb hbu
  unfold dupAgainst at h
  rw [List.any_eq_false] at h
  have := h b hb
  simp only [Bool.and_eq_true, bne_iff_ne, ne_eq, beq_iff_eq, not_and] at this
  exact this hbu

/-- helper: every record the ingest loop creates avoids the store's URLs -/
theorem ingestGo_no_dup (ids : Nat → String) (now : String)
    (ex : List Application) :
    ∀ (links : List String) (k : Nat) (a : Application),
      a ∈ ingestGo ids now ex k links →
      ∀ b ∈ ex, trimS b.url ≠ "" →
        normalizeUrlForComparison b.url ≠ a.url := by
  intro links
  induction links with
  | nil => intro k a ha; simp [ingestGo] at ha
  | cons x rest ih =>
    intro k a ha
    cases hx : processEntry ex x with
    | none =>
      simp only [ingestGo, hx] at ha
      exact ih k a ha
    | some v =>
      simp only [ingestGo, hx, List.mem_cons] at ha
      rcases ha with ha | ha
      · subst ha
        intro b hb hbu
        exact dupAgainst_false ex v.1 (processEntry_some_nodup ex x v hx) b hb hbu
      · exact ih (k + 1) a ha

/-- C1 (amended): `createApplicationsFromLinks` deduplicates only
against the records already in the store when the call began: every
created record's URL differs from the normalized URL of every
pre-existing record with a non-empty URL.  Uniqueness within the batch
is not enforced (see the counterexample); it is restored by the
dedup-on-load self-heal. -/
theorem ingestLinks_unique_against_store (ids : Nat → String) (now : String)
    (existing : List Application) (links : List String)
    (created store' : List Application)
    (h : createApplicationsFromLinks ids now existing links =
      .ok (created, store')) :
    ∀ a ∈ created, ∀ b ∈ existing, trimS b.url ≠ "" →
      normalizeUrlForComparison b.url ≠ a.url := by
  unfold createApplicationsFromLinks at h
  split at h
  · simp at h
  · injection h with h'
    injection h' with h1 h2
    subst h1
    exact fun a ha => ingestGo_no_dup ids now existing links 0 a ha

theorem ingestLinks_unique_against_store_witness :
    normalizeUrlForComparison sampleRecordA.url ≠
      (mkLinkApp "id0" "https://new.example.com/1" none "T").url :=
  ingestLinks_unique_against_store (fun _ => "id0") "T" [sampleRecordA]
    ["https://new.example.com/1"] _ _ rfl _ (by decide) sampleRecordA
    (by decide) (by decide)

/-- helper: the dedup loop agrees with the first-occurrence description
whenever `seen` holds exactly the normalized URLs of the processed
records with non-empty URLs -/
theorem dedupGo_eq_specGo : ∀ (l : List Application) (seen : List String)
    (earlier : List Application),
    (∀ nu, nu ∈ seen ↔ ∃ b ∈ earlier, trimS b.url ≠ "" ∧
      normalizeUrlForComparison b.url = nu) →
    dedupGo seen l = dedupSpecGo earlier l := by
  intro l
  induction l with
  | nil => intro seen earlier hinv; rfl
  | cons a rest ih =>
    intro seen earlier hinv
    by_cases ha : trimS a.url = ""
    · have hk : keepRecord earlier a = true := by
        simp [keepRecord, ha]
      simp only [dedupGo, dedupSpecGo, if_pos ha, hk, if_pos]
      refine congrArg (a :: ·) (ih seen (earlier ++ [a]) ?_)
      intro nu
      rw [hinv nu]
      constructor
      · rintro ⟨b, hb, h1, h2⟩
        exact ⟨b, List.mem_append_left _ hb, h1, h2⟩
      · rintro ⟨b, hb, h1, h2⟩
        rcases List.mem_append.mp hb with hb | hb
        · exact ⟨b, hb, h1, h2⟩
        · rw [List.mem_singleton] at hb
          subst hb
          exact absurd ha h1
    · have hnext : ∀ nuv, nuv ∈ normalizeUrlForComparison a.url :: seen ↔
          ∃ b ∈ earlier ++ [a], trimS b.url ≠ "" ∧
            normalizeUrlForComparison b.url = nuv := by
        intro nuv
        rw [List.mem_cons, hinv nuv]
        constructor
        · rintro (h | ⟨b, hb, h1, h2⟩)
          · exact ⟨a, List.mem_append_right _ (List.mem_singleton.mpr rfl),
              ha, h.symm⟩
          · exact ⟨b, List.mem_append_left _ hb, h1, h2⟩
        · rintro ⟨b, hb, h1, h2⟩
          rcases List.mem_append.mp hb with hb | hb
          · exact Or.inr ⟨b, hb, h1, h2⟩
          · rw [List.mem_singleton] at hb
            subst hb
            exact Or.inl h2.symm
      by_cases hseen : normalizeUrlForComparison a.url ∈ seen
      · have hk : keepRecord earlier a = false := by
          obtain ⟨b, hb, h1, h2⟩ := (hinv _).mp hseen
          simp only [keepRecord, Bool.or_eq_false_iff]
          refine ⟨by simpa using ha, ?_⟩
          simp only [Bool.not_eq_false', List.any_eq_true]
          exact ⟨b, hb, by simp [h1, h2]⟩
        simp only [dedupGo, dedupSpecGo, if_neg ha, if_pos hseen, hk,
          Bool.false_eq_true, if_false]
        refine ih seen (earlier ++ [a]) ?_
        intro nuv
        rw [hinv nuv]
        constructor
        · rintro ⟨b, hb, h1, h2⟩
          exact ⟨b, List.mem_append_left _ hb, h1, h2⟩
        · rintro ⟨b, hb, h1, h2⟩
          rcases List.mem_append.mp hb with hb | hb
          · exact ⟨b, hb, h1, h2⟩
          · rw [List.mem_singleton] at hb
            subst hb
            exact (hinv nuv).mp (h2 ▸ hseen)
      · have hk : keepRecord earlier a = true := by
          simp only [keepRecord, Bool.or_eq_true]
          right
          simp only [Bool.not_eq_true', List.any_eq_false]
          intro b hb
          simp only [Bool.and_eq_true, bne_iff_ne, ne_eq, beq_iff_eq, not_and]
          intro h1 h2
          exact hseen ((hinv _).mpr ⟨b, hb, h1, h2⟩)
        simp only [dedupGo, dedupSpecGo, if_neg ha, if_neg hseen, hk, if_pos]
        exact congrArg (a :: ·)
          (ih (normalizeUrlForComparison a.url :: seen) (earlier ++ [a]) hnext)

/-- C10: `deduplicateApplications` keeps, for each normalized non-empty
URL, exactly the first record in list order and drops every later record
with the same normalized URL; records with empty or whitespace URLs are
kept unconditionally; the relative order of kept records is preserved —
stated as equality with the first-occurrence specification. -/
theorem deduplicate_first_occurrence (apps : List Application) :
    deduplicateApplications apps = dedupFirstOccurrence apps :=
  dedupGo_eq_specGo apps [] [] (by simp)

/-- helper -/
theorem strOpt_getD (o : Option String) (h : o ≠ some "") :
    strOpt (o.getD "") = o := by
  cases o with
  | none => rfl
  | some s =>
    have hs : s ≠ "" := fun e => h (by rw [e])
    simp [strOpt, hs]

/-- helper -/
theorem validStatus_ne_empty {s : String} (h : validStatus s = true) :
    s ≠ "" := by
  intro he
  rw [he] at h
  exact absurd h (by decide)

/-- helper -/
theorem validPriority_ne_empty {s : String} (h : validPriority s = true) :
    s ≠ "" := by
  intro he
  rw [he] at h
  exact absurd h (by decide)

/-- helper: one row round-trips -/
theorem rowToApp_appToRow (now : String) (a : Application)
    (h : WellFormedApp a) : rowToApp now (appToRow a) = some a := by
  obtain ⟨h1, h2, h3, h4, h5, h6, h7, h8, h9, h10, h11, h12, h13, h14⟩ := h
  show (if a.id = "" then none
    else some
      { id := a.id, url := a.url, linkTitle := strOpt (a.linkTitle.getD ""),
        company := strOpt (a.company.getD ""),
        roleTitle := strOpt (a.roleTitle.getD ""),
        location := strOpt (a.location.getD ""),
        status := if a.status = "" then "TODO" else a.status,
        priority := if a.priority = "" then "MEDIUM" else a.priority,
        notes := strOpt (a.notes.getD ""),
        appliedDate := strOpt (a.appliedDate.getD ""),
        interviewDate := strOpt (a.interviewDate.getD ""),
        offerDate := strOpt (a.offerDate.getD ""),
        rejectedDate := strOpt (a.rejectedDate.getD ""),
        createdAt := if a.createdAt = "" then now else a.createdAt,
        updatedAt := if a.updatedAt = "" then now else a.updatedAt }) = some a
  rw [if_neg h1, strOpt_getD _ h6, strOpt_getD _ h7, strOpt_getD _ h8,
    strOpt_getD _ h9, strOpt_getD _ h10, strOpt_getD _ h11,
    strOpt_getD _ h12, strOpt_getD _ h13, strOpt_getD _ h14,
    if_neg (validStatus_ne_empty h2), if_neg (validPriority_ne_empty h3),
    if_neg h4, if_neg h5]

/-- helper: row lists round-trip -/
theorem filterMap_roundtrip (now : String) :
    ∀ (apps : List Application), (∀ a ∈ apps, WellFormedApp a) →
      (apps.map appToRow).filterMap (rowToApp now) = apps := by
  intro apps h
  induction apps with
  | nil => rfl
  | cons x rest ih =>
    simp only [List.map_cons, List.filterMap_cons,
      rowToApp_appToRow now x (h x (by simp))]
    rw [ih (fun a ha => h a (by simp [ha]))]

/-- C8: for every well-formed record list (including the empty list),
`saveApplications` followed by `loadApplications` returns the same
records, field by field and in order, at the table-codec level. -/
theorem save_load_round_trip (now : String) (apps : List Application)
    (h : ∀ a ∈ apps, WellFormedApp a) :
    loadApplicationsBlob now (saveApplicationsBlob apps) = apps := by
  cases apps with
  | nil => rfl
  | cons x rest =>
    unfold loadApplicationsBlob saveApplicationsBlob
    rw [if_neg (by simp)]
    simp only [List.drop_succ_cons, List.drop_zero]
    exact filterMap_roundtrip now _ h

theorem save_load_round_trip_witness :
    loadApplicationsBlob "N" (saveApplicationsBlob [sampleRecordA, sampleRecordB]) =
      [sampleRecordA, sampleRecordB] :=
  save_load_round_trip "N" [sampleRecordA, sampleRecordB] (by
    intro a ha
    rcases List.mem_cons.mp ha with h | h
    · subst h; refine ⟨?_, ?_, ?_, ?_, ?_, ?_, ?_, ?_, ?_, ?_, ?_, ?_, ?_, ?_⟩ <;> decide
    · rw [List.mem_singleton] at h; subst h
      refine ⟨?_, ?_, ?_, ?_, ?_, ?_, ?_, ?_, ?_, ?_, ?_, ?_, ?_, ?_⟩ <;> decide)

/-- helper -/
theorem get?_of_findApp : ∀ (store : List Application) (idv : String)
    (i : Nat) (a : Application),
    findApp store idv = some (i, a) → store.get? i = some a := by
  intro store idv
  induction store with
  | nil => intro i a h; simp [findApp] at h
  | cons x rest ih =>
    intro i a h
    unfold findApp at h
    split at h
    · injection h with h'
      injection h' with h1 h2
      subst h1 h2
      rfl
    · rw [Option.map_eq_some'] at h
      obtain ⟨⟨j, b⟩, hj, hb⟩ := h
      injection hb with h1 h2
      subst h1 h2
      exact ih j b hj

/-- helper -/
theorem findApp_of_mem : ∀ (store : List Application) (idv : String)
    (a : Application), a ∈ store → a.id = idv →
    ∃ i b, findApp store idv = some (i, b) := by
  intro store idv
  induction store with
  | nil => intro a ha _; simp at ha
  | cons x rest ih =>
    intro a ha haid
    unfold findApp
    by_cases hx : x.id = idv
    · exact ⟨0, x, by rw [if_pos hx]⟩
    · rcases List.mem_cons.mp ha with h | h
      · subst h; exact absurd haid hx
      · obtain ⟨j, b, hj⟩ := ih a h haid
        exact ⟨j + 1, b, by rw [if_neg hx, hj]; rfl⟩

/-- helper -/
theorem get?_some_lt : ∀ (l : List Application) (i : Nat) (a : Application),
    l.get? i = some a → i < l.length := by
  intro l
  induction l with
  | nil => intro i a h; simp at h
  | cons x rest ih =>
    intro i a h
    cases i with
    | zero => simp
    | succ j => exact Nat.succ_lt_succ (ih j a h)

/-- helper -/
theorem get?_set_self : ∀ (l : List Application) (i : Nat) (a : Application),
    i < l.length → (l.set i a).get? i = some a := by
  intro l
  induction l with
  | nil => intro i a h; simp at h
  | cons x rest ih =>
    intro i a h
    cases i with
    | zero => rfl
    | succ j => exact ih j a (Nat.lt_of_succ_lt_succ h)

/-- helper -/
theorem mem_of_get?' : ∀ (l : List Application) (i : Nat) (a : Application),
    l.get? i = some a → a ∈ l := by
  intro l
  induction l with
  | nil => intro i a h; simp at h
  | cons x rest ih =>
    intro i a h
    cases i with
    | zero =>
      injection h with h'
      subst h'
      exact List.mem_cons_self _ _
    | succ j => exact List.mem_cons_of_mem _ (ih j a h)

/-- helper -/
theorem map_set' : ∀ (l : List Application) (i : Nat) (a : Application)
    (f : Application → String), (l.set i a).map f = (l.map f).set i (f a) := by
  intro l
  induction l with
  | nil => intro i a f; rfl
  | cons x rest ih =>
    intro i a f
    cases i with
    | zero => rfl
    | succ j => exact congrArg (f x :: ·) (ih j a f)

/-- helper -/
theorem set_same' : ∀ (l : List String) (i : Nat) (a : String),
    l.get? i = some a → l.set i a = l := by
  intro l
  induction l with
  | nil => intro i a h; simp at h
  | cons x rest ih =>
    intro i a h
    cases i with
    | zero =>
      injection h with h'
      subst h'
      rfl
    | succ j => exact congrArg (x :: ·) (ih j a h)

/-- helper: a status-only update leaves the record id unchanged -/
theorem applyStatusUpdate_id (t : String) (a : Application) (s : String) :
    (applyStatusUpdate t a s).id = a.id := by
  unfold applyStatusUpdate applyPatch statusPatch
  dsimp only
  split <;> rfl

/-- helper: a status-only update never clears a set date field -/
theorem applyStatusUpdate_dates (t : String) (a : Application) (s : String) :
    (a.appliedDate.getD "" ≠ "" →
      (applyStatusUpdate t a s).appliedDate = a.appliedDate) ∧
    (a.interviewDate.getD "" ≠ "" →
      (applyStatusUpdate t a s).interviewDate = a.interviewDate) ∧
    (a.offerDate.getD "" ≠ "" →
      (applyStatusUpdate t a s).offerDate = a.offerDate) ∧
    (a.rejectedDate.getD "" ≠ "" →
      (applyStatusUpdate t a s).rejectedDate = a.rejectedDate) := by
  unfold applyStatusUpdate applyPatch statusPatch
  dsimp only
  split
  · refine ⟨?_, ?_, ?_, ?_⟩ <;> intro h <;>
      (dsimp only; rw [if_neg (fun hc => h hc.2)]; rfl)
  · exact ⟨fun _ => rfl, fun _ => rfl, fun _ => rfl, fun _ => rfl⟩

/-- helper: the first transition into a status stamps its unset date -/
theorem applyStatusUpdate_sets_dates (t : String) (a : Application) :
    (a.appliedDate.getD "" = "" → a.status ≠ "APPLIED" →
      (applyStatusUpdate t a "APPLIED").appliedDate = some t) ∧
    (a.interviewDate.getD "" = "" → a.status ≠ "INTERVIEW" →
      (applyStatusUpdate t a "INTERVIEW").interviewDate = some t) ∧
    (a.offerDate.getD "" = "" → a.status ≠ "OFFER" →
      (applyStatusUpdate t a "OFFER").offerDate = some t) ∧
    (a.rejectedDate.getD "" = "" → a.status ≠ "REJECTED" →
      (applyStatusUpdate t a "REJECTED").rejectedDate = some t) := by
  refine ⟨?_, ?_, ?_, ?_⟩ <;> intro h1 h2 <;>
    (unfold applyStatusUpdate applyPatch statusPatch
     dsimp only
     rw [if_pos ⟨by decide, fun he => h2 he.symm⟩]
     dsimp only
     rw [if_pos ⟨rfl, h1⟩])

/-- helper: shape of a status-only `updateApplication` -/
theorem updateApplication_statusPatch (t : String) (store : List Application)
    (idv s : String) (i : Nat) (app : Application)
    (hf : findApp store idv = some (i, app)) :
    updateApplication t store idv (statusPatch s) =
      .ok (applyStatusUpdate t app s,
        store.set i (applyStatusUpdate t app s)) := by
  unfold updateApplication
  rw [hf]
  rfl

/-- helper -/
theorem get?_map' : ∀ (l : List Application) (i : Nat)
    (f : Application → String), (l.map f).get? i = (l.get? i).map f := by
  intro l
  induction l with
  | nil => intro i f; cases i <;> rfl
  | cons x rest ih =>
    intro i f
    cases i with
    | zero => rfl
    | succ j => exact ih j f

/-- helper: with unique ids, the record carrying `idv` after a sequence
of status-only updates is the fold of the record-level step over the
original record -/
theorem runStatusUpdates_tracked (idv : String) :
    ∀ (steps : List (String × String)) (store : List Application),
      (store.map Application.id).Nodup →
      ∀ a, a ∈ store → a.id = idv →
      ∀ b, b ∈ runStatusUpdates idv steps store → b.id = idv →
      b = statusFold a steps := by
  intro steps
  induction steps with
  | nil =>
    intro store hnodup a ha haid b hb hbid
    exact List.inj_on_of_nodup_map hnodup hb ha (by rw [hbid]; exact haid.symm)
  | cons st rest ih =>
    intro store hnodup a ha haid b hb hbid
    obtain ⟨s, t⟩ := st
    obtain ⟨i, c, hf⟩ := findApp_of_mem store idv a ha haid
    have hcid : c.id = idv := findApp_some_id store idv i c hf
    have hci : store.get? i = some c := get?_of_findApp store idv i c hf
    have hcmem : c ∈ store := mem_of_get?' store i c hci
    have hca : c = a := List.inj_on_of_nodup_map hnodup hcmem ha (by rw [hcid, haid])
    subst hca
    have hrun : runStatusUpdates idv ((s, t) :: rest) store =
        runStatusUpdates idv rest
          (store.set i (applyStatusUpdate t c s)) := by
      simp only [runStatusUpdates,
        updateApplication_statusPatch t store idv s i c hf]
    rw [hrun] at hb
    have hmapeq : (store.set i (applyStatusUpdate t c s)).map Application.id =
        store.map Application.id := by
      rw [map_set' store i _ Application.id, applyStatusUpdate_id]
      exact set_same' (store.map Application.id) i c.id (by
        rw [get?_map', hci]; rfl)
    have hnodup' : ((store.set i (applyStatusUpdate t c s)).map
        Application.id).Nodup := by rw [hmapeq]; exact hnodup
    have hmem' : applyStatusUpdate t c s ∈ store.set i (applyStatusUpdate t c s) := by
      refine mem_of_get?' _ i _ (get?_set_self store i _ ?_)
      exact get?_some_lt store i c hci
    have hid' : (applyStatusUpdate t c s).id = idv := by
      rw [applyStatusUpdate_id]; exact hcid
    have := ih (store.set i (applyStatusUpdate t c s)) hnodup'
      (applyStatusUpdate t c s) hmem' hid' b hb hbid
    rw [this]
    rfl

/-- helper: a set date survives any sequence of status-only steps -/
theorem statusFold_preserves_dates : ∀ (steps : List (String × String))
    (a : Application),
    (a.appliedDate.getD "" ≠ "" →
      (statusFold a steps).appliedDate = a.appliedDate) ∧
    (a.interviewDate.getD "" ≠ "" →
      (statusFold a steps).interviewDate = a.interviewDate) ∧
    (a.offerDate.getD "" ≠ "" →
      (statusFold a steps).offerDate = a.offerDate) ∧
    (a.rejectedDate.getD "" ≠ "" →
      (statusFold a steps).rejectedDate = a.rejectedDate) := by
  intro steps
  induction steps with
  | nil => intro a; exact ⟨fun _ => rfl, fun _ => rfl, fun _ => rfl, fun _ => rfl⟩
  | cons st rest ih =>
    intro a
    obtain ⟨s, t⟩ := st
    have hstep := applyStatusUpdate_dates t a s
    have hrec := ih (applyStatusUpdate t a s)
    refine ⟨fun h => ?_, fun h => ?_, fun h => ?_, fun h => ?_⟩
    · have h1 := hstep.1 h
      have h2 : (applyStatusUpdate t a s).appliedDate.getD "" ≠ "" := by
        rw [h1]; exact h
      show (statusFold (applyStatusUpdate t a s) rest).appliedDate = _
      rw [hrec.1 h2, h1]
    · have h1 := hstep.2.1 h
      have h2 : (applyStatusUpdate t a s).interviewDate.getD "" ≠ "" := by
        rw [h1]; exact h
      show (statusFold (applyStatusUpdate t a s) rest).interviewDate = _
      rw [hrec.2.1 h2, h1]
    · have h1 := hstep.2.2.1 h
      have h2 : (applyStatusUpdate t a s).offerDate.getD "" ≠ "" := by
        rw [h1]; exact h
      show (statusFold (applyStatusUpdate t a s) rest).offerDate = _
      rw [hrec.2.2.1 h2, h1]
    · have h1 := hstep.2.2.2 h
      have h2 : (applyStatusUpdate t a s).rejectedDate.getD "" ≠ "" := by
        rw [h1]; exact h
      show (statusFold (applyStatusUpdate t a s) rest).rejectedDate = _
      rw [hrec.2.2.2 h2, h1]

/-- C6: over any sequence of status-only `updateApplication` calls
against a store with unique ids, each derived date field (appliedDate,
interviewDate, offerDate, rejectedDate) of the tracked record, once set,
is never changed by any later transition — including a later transition
back into the same status — and an unset field is stamped with `now` on
the first transition into its status. -/
theorem updateApplication_date_ratchet
    (store : List Application) (idv : String)
    (steps : List (String × String))
    (hnodup : (store.map Application.id).Nodup)
    (a b : Application) (ha : a ∈ store) (haid : a.id = idv)
    (hb : b ∈ runStatusUpdates idv steps store) (hbid : b.id = idv) :
    ((a.appliedDate.getD "" ≠ "" → b.appliedDate = a.appliedDate) ∧
     (a.interviewDate.getD "" ≠ "" → b.interviewDate = a.interviewDate) ∧
     (a.offerDate.getD "" ≠ "" → b.offerDate = a.offerDate) ∧
     (a.rejectedDate.getD "" ≠ "" → b.rejectedDate = a.rejectedDate)) ∧
    ((∀ t r store2, a.appliedDate.getD "" = "" → a.status ≠ "APPLIED" →
        updateApplication t store idv (statusPatch "APPLIED") =
          .ok (r, store2) → r.appliedDate = some t) ∧
     (∀ t r store2, a.interviewDate.getD "" = "" → a.status ≠ "INTERVIEW" →
        updateApplication t store idv (statusPatch "INTERVIEW") =
          .ok (r, store2) → r.interviewDate = some t) ∧
     (∀ t r store2, a.offerDate.getD "" = "" → a.status ≠ "OFFER" →
        updateApplication t store idv (statusPatch "OFFER") =
          .ok (r, store2) → r.offerDate = some t) ∧
     (∀ t r store2, a.rejectedDate.getD "" = "" → a.status ≠ "REJECTED" →
        updateApplication t store idv (statusPatch "REJECTED") =
          .ok (r, store2) → r.rejectedDate = some t)) := by
  have hfold := runStatusUpdates_tracked idv steps store hnodup a ha haid b hb hbid
  have hca : ∀ i c, findApp store idv = some (i, c) → c = a := by
    intro i c hf
    have hcid : c.id = idv := findApp_some_id store idv i c hf
    have hcmem : c ∈ store := mem_of_get?' store i c (get?_of_findApp store idv i c hf)
    exact List.inj_on_of_nodup_map hnodup hcmem ha (by rw [hcid, haid])
  have hset : ∀ (t s : String) (r : Application) (store2 : List Application),
      updateApplication t store idv (statusPatch s) = .ok (r, store2) →
      r = applyStatusUpdate t a s := by
    intro t s r store2 h
    obtain ⟨i, c, hf⟩ := findApp_of_mem store idv a ha haid
    rw [updateApplication_statusPatch t store idv s i c hf] at h
    injection h with h'
    injection h' with h1 h2
    rw [← h1, hca i c hf]
  constructor
  · have hp := statusFold_preserves_dates steps a
    exact ⟨fun h => hfold ▸ hp.1 h, fun h => hfold ▸ hp.2.1 h,
      fun h => hfold ▸ hp.2.2.1 h, fun h => hfold ▸ hp.2.2.2 h⟩
  · refine ⟨fun t r store2 h1 h2 h => ?_, fun t r store2 h1 h2 h => ?_,
      fun t r store2 h1 h2 h => ?_, fun t r store2 h1 h2 h => ?_⟩
    · rw [hset t "APPLIED" r store2 h]
      exact (applyStatusUpdate_sets_dates t a).1 h1 h2
    · rw [hset t "INTERVIEW" r store2 h]
      exact (applyStatusUpdate_sets_dates t a).2.1 h1 h2
    · rw [hset t "OFFER" r store2 h]
      exact (applyStatusUpdate_sets_dates t a).2.2.1 h1 h2
    · rw [hset t "REJECTED" r store2 h]
      exact (applyStatusUpdate_sets_dates t a).2.2.2 h1 h2

theorem updateApplication_date_ratchet_witness :
    ({ id := "B", url := "https://b.com/y", linkTitle := none,
       company := none, roleTitle := none, location := none,
       status := "APPLIED", priority := "HIGH", notes := none,
       appliedDate := some "2024-01-02", interviewDate := none,
       offerDate := none, rejectedDate := none, createdAt := "2024-01-01",
       updatedAt := "t3" } : Application).appliedDate =
      sampleRecordB.appliedDate :=
  (updateApplication_date_ratchet [sampleRecordB] "B"
    [("APPLIED", "t1"), ("TODO", "t2"), ("APPLIED", "t3")] (by decide)
    sampleRecordB _ (by decide) rfl (by decide) rfl).1.1 (by decide)
